import Mathlib

/-!
Shallow embedding of the style-attribute codec and OCR reconstruction
pipeline of the repository (Python sources under `src/project/`), together
with theorems checking the specification's claims about them.

Conventions of the embedding:
* Python dicts holding span/block data become structures whose optional
  keys are `Option` fields (`none` = key absent).
* Python numbers (ints and floats) become `ℚ`; machine-float rounding is
  not modelled, arithmetic is exact.
* `span.get("flags", 0)` becomes `Span.flags.getD 0` with `flags : Option ℕ`.
* Python's `f & ~(2|3)` on a nonnegative int clears bits 0 and 1; on `ℕ`
  this is `f / 4 * 4`.
-/

namespace Spec2Proof

/-- Axis-aligned rectangle as used by `fitz.Rect` (x0,y0,x1,y1). -/
structure Rect where
  x0 : ℚ
  y0 : ℚ
  x1 : ℚ
  y1 : ℚ
  deriving Repr, DecidableEq

/-- Python-style two-argument min (comparison-based). -/
def qmin (a b : ℚ) : ℚ := if a ≤ b then a else b

/-- Python-style two-argument max (comparison-based). -/
def qmax (a b : ℚ) : ℚ := if a ≤ b then b else a

/-- Union of two rectangles, `fitz.Rect.__or__`: smallest rect containing both. -/
def Rect.union (a b : Rect) : Rect :=
  ⟨qmin a.x0 b.x0, qmin a.y0 b.y0, qmax a.x1 b.x1, qmax a.y1 b.y1⟩

/-- Python `str.strip()`: drop whitespace from both ends, modelled on the
character list. -/
def pyStrip (s : String) : String :=
  ⟨((s.data.dropWhile Char.isWhitespace).reverse.dropWhile Char.isWhitespace).reverse⟩

/-- Bounding-box object as the span-level handlers use it: an object whose
`height` and `width` attributes are read and assigned
(`bbox.height *= scale_factor`, `bbox.width += total_spacing`). -/
structure BBox where
  height : ℚ
  width : ℚ
  deriving Repr, DecidableEq

/-- Wave parameters written by `reinsert_underline` for the "wavy" style. -/
structure WaveParams where
  amplitude : ℚ
  length : ℚ
  position : ℚ
  deriving Repr, DecidableEq

/-- PyMuPDF-style span dict: each optional key of the dict that the
text-attribute handlers read or write is an `Option` field. -/
structure Span where
  flags : Option ℕ := none
  rise : Option ℚ := none
  size : Option ℚ := none
  text : Option String := none
  bbox : Option BBox := none
  baseline : Option ℚ := none
  font : Option String := none
  underline_style : Option String := none
  underline_color : Option (List String) := none
  underline_position : Option ℚ := none
  underline_thickness : Option ℚ := none
  underline_positions : Option (List ℚ) := none
  underline_dash : Option (List ℚ) := none
  underline_wave : Option WaveParams := none
  dash_pattern : Option (List ℚ) := none
  wave_amplitude : Option ℚ := none
  wave_length : Option ℚ := none
  baseline_offset : Option ℚ := none
  original_size : Option ℚ := none
  char_spacing : Option ℚ := none
  deriving Repr, DecidableEq

/-- Values a StyleMap entry can hold (`Union[str, float]` in the sources). -/
inductive SVal where
  | num (q : ℚ)
  | str (s : String)
  deriving Repr, DecidableEq

/-- The edited style map (`style_dict`): each CSS-like key consumed by the
handlers under verification is an `Option` field (`none` = key absent). -/
structure StyleMap where
  vertical_align : Option String := none
  text_decoration : Option String := none
  text_decoration_style : Option String := none
  font_size : Option SVal := none
  letter_spacing : Option SVal := none
  deriving Repr, DecidableEq

/-! ## vertical_align_handling.py -/

/-- Embedding of `extract_vertical_align` (vertical_align_handling.py):
checks `flags & 2` (superscript) first, then `flags & 3` (subscript),
then the sign of `rise`, defaulting to baseline. -/
def extract_vertical_align (span : Span) : String :=
  let flags := span.flags.getD 0
  if flags &&& 2 ≠ 0 then "vertical-align: super;"
  else if flags &&& 3 ≠ 0 then "vertical-align: sub;"
  else
    match span.rise with
    | some rise =>
        if rise > 0 then "vertical-align: super;"
        else if rise < 0 then "vertical-align: sub;"
        else "vertical-align: baseline;"
    | none => "vertical-align: baseline;"

/-- Embedding of `reinsert_vertical_align` (vertical_align_handling.py).
The Python code first clears the super/sub bits (`flags & ~(2|3)`, here
`/ 4 * 4`) and resets `rise`, then applies the requested alignment, and
for sub/super also shrinks the size to 75%. -/
def reinsert_vertical_align (span : Span) (style : StyleMap) : Span :=
  match style.vertical_align with
  | none => span
  | some align =>
    let f := span.flags.getD 0
    let span := { span with flags := some (f / 4 * 4), rise := some 0 }
    let span :=
      if align = "super" then
        { span with
            flags := some ((span.flags.getD 0) ||| 2),
            rise := some ((span.size.getD 12) * (33 / 100)) }
      else if align = "sub" then
        { span with
            flags := some ((span.flags.getD 0) ||| 3),
            rise := some (-((span.size.getD 12) * (33 / 100))) }
      else if align = "text-top" then
        { span with rise := some (span.size.getD 12) }
      else if align = "text-bottom" then
        { span with rise := some (-(span.size.getD 12)) }
      else if align = "middle" then
        { span with rise := some ((span.size.getD 12) * (1 / 2)) }
      else span
    if align = "sub" ∨ align = "super" then
      { span with size := some ((span.size.getD 12) * (3 / 4)) }
    else span

/-- Helper: clearing bits 0 and 1 leaves bit 0 unset. -/
theorem clearLow2_testBit_zero (n : ℕ) : (n / 4 * 4).testBit 0 = false := by
  have h : n / 4 * 4 % 2 = 0 := by omega
  simp [Nat.testBit_zero, h]

/-- Helper: clearing bits 0 and 1 and then or-ing in bit 1 leaves bit 0 unset. -/
theorem clearLow2_lor_two_testBit_zero (n : ℕ) :
    ((n / 4 * 4) ||| 2).testBit 0 = false := by
  have h : n / 4 * 4 % 2 = 0 := by omega
  simp [Nat.testBit_lor, Nat.testBit_zero, h]

/-- C9: for every span, reinserting any `vertical-align` value other than
`"sub"` leaves flag bit 0 (the italic bit) cleared in the result: the reset
mask `~(2|3)` erases a previously set italic flag and only the `"sub"`
branch (which or-s in 3) can set bit 0 again. -/
theorem C9_reinsert_vertical_align_clears_italic
    (span : Span) (style : StyleMap) (align : String)
    (hkey : style.vertical_align = some align) (hsub : align ≠ "sub") :
    ((reinsert_vertical_align span style).flags.getD 0).testBit 0 = false := by
  unfold reinsert_vertical_align
  rw [hkey]
  dsimp only
  split_ifs with h1 h2 h3 h4 h5 h6 h7 h8 h9 <;>
    simp_all [clearLow2_testBit_zero, clearLow2_lor_two_testBit_zero] <;> omega

/-- C1: evaluation of the extraction order bug at the failing input. A span
whose flag bitfield is 3 (bits 0 and 1 both set — the encoding that
`reinsert_vertical_align` itself writes for subscript, per its comment
"Set subscript flag") is classified by `extract_vertical_align` as
superscript, because the `flags & 2` test fires before the `flags & 3`
test; the subscript combination is therefore never recognized first,
contradicting the claim. -/
theorem C1_flags_three_extracts_super :
    extract_vertical_align { flags := some 3 } = "vertical-align: super;" ∧
    extract_vertical_align { flags := some 3 } ≠ "vertical-align: sub;" ∧
    (reinsert_vertical_align { flags := some 0 }
        { vertical_align := some "sub" }).flags = some 3 :=
  ⟨rfl, by decide, rfl⟩

/-- Witness for C9: an italic span (flags = 1) subjected to a superscript
vertical-align edit loses its italic bit. -/
theorem C9_witness :
    (({ flags := some 1 } : Span).flags ≠ none) ∧
    ((reinsert_vertical_align { flags := some 1 }
        { vertical_align := some "super" }).flags.getD 0).testBit 0 = false := by
  refine ⟨by decide, C9_reinsert_vertical_align_clears_italic
    { flags := some 1 } { vertical_align := some "super" } "super" rfl (by decide)⟩

/-! ## font_size_handling.py and letter_spacing_handling.py -/

/-- The five unit suffixes of the regex alternation `(pt|px|em|rem|%)`. -/
inductive UnitSuffix where
  | pt
  | px
  | em
  | rem
  | pct
  deriving Repr, DecidableEq

/-- Numeric value of a digit run, as `float()` reads the integer part. -/
def digitsVal (ds : List Char) : ℕ :=
  ds.foldl (fun a c => a * 10 + (c.toNat - 48)) 0

/-- Embedding of matching `re.match(r'(-?\d*\.?\d+)\s*(pt|px|em|rem|%)?', s)`
and reading the two groups: an optional sign, then (with backtracking over
the optional dot) integer digits and an optional fractional part — at
least one digit in the final `\d+` is required — then optional whitespace
and an optional unit, the alternation tried left to right.  Trailing
characters are ignored (`re.match` anchors only the start).  `group(2) or
'pt'` supplies the default unit. -/
def pyParseNumUnit (s : String) : Option (ℚ × UnitSuffix) :=
  let cs := s.data
  let (neg, cs1) :=
    match cs with
    | '-' :: rest => (true, rest)
    | _ => (false, cs)
  let d1 := cs1.takeWhile Char.isDigit
  let rest1 := cs1.dropWhile Char.isDigit
  let (numOk, v, rest2) :=
    match rest1 with
    | '.' :: rest =>
        let d2 := rest.takeWhile Char.isDigit
        if d2 ≠ [] then
          (true, (digitsVal d1 : ℚ) + (digitsVal d2 : ℚ) / (10 : ℚ) ^ d2.length,
            rest.dropWhile Char.isDigit)
        else if d1 ≠ [] then (true, ((digitsVal d1 : ℚ)), rest1)
        else (false, (0 : ℚ), rest1)
    | _ => if d1 ≠ [] then (true, ((digitsVal d1 : ℚ)), rest1) else (false, (0 : ℚ), rest1)
  if numOk then
    let value := if neg then -v else v
    let rest3 := rest2.dropWhile Char.isWhitespace
    let unit :=
      if ['p', 't'].isPrefixOf rest3 then UnitSuffix.pt
      else if ['p', 'x'].isPrefixOf rest3 then UnitSuffix.px
      else if ['e', 'm'].isPrefixOf rest3 then UnitSuffix.em
      else if ['r', 'e', 'm'].isPrefixOf rest3 then UnitSuffix.rem
      else if ['%'].isPrefixOf rest3 then UnitSuffix.pct
      else UnitSuffix.pt
    some (value, unit)
  else none

/-- The `unit_conversions` dict shared verbatim by `normalize_font_size` and
`normalize_letter_spacing`: pt→1.0, px→0.75, em→12.0, rem→12.0, %→0.12. -/
def unit_conversions : UnitSuffix → ℚ
  | .pt => 1
  | .px => 3 / 4
  | .em => 12
  | .rem => 12
  | .pct => 12 / 100

/-- Embedding of `normalize_font_size` (font_size_handling.py): numbers pass
through, strings are parsed and unit-converted, anything unparseable falls
back to 12.0 points. -/
def normalize_font_size : SVal → ℚ
  | .num q => q
  | .str s =>
    match pyParseNumUnit s with
    | none => 12
    | some (v, u) => v * unit_conversions u

/-- Embedding of `normalize_letter_spacing` (letter_spacing_handling.py):
identical parse and conversion table, fallback 0.0 points. -/
def normalize_letter_spacing : SVal → ℚ
  | .num q => q
  | .str s =>
    match pyParseNumUnit s with
    | none => 0
    | some (v, u) => v * unit_conversions u

/-- Embedding of `reinsert_font_size` (font_size_handling.py).  The source
assigns `span["size"] = size` first and only then reads
`old_size = span.get("size", 12.0)`, so the scale factor is computed from
the already-overwritten size.  (With `size = 0` the Python code would
divide by zero; `ℚ` division totalises that case as 0.) -/
def reinsert_font_size (span : Span) (style : StyleMap) : Span :=
  match style.font_size with
  | none => span
  | some fsVal =>
    let size := normalize_font_size fsVal
    let span := { span with size := some size }
    if span.text.isSome ∧ span.bbox.isSome then
      let bbox := span.bbox.getD ⟨0, 0⟩
      let old_size := span.size.getD 12
      let scale_factor := size / old_size
      let bbox := { bbox with height := bbox.height * scale_factor }
      let span := { span with bbox := some bbox }
      let span :=
        match span.baseline with
        | some b => { span with baseline := some (b * scale_factor) }
        | none => span
      { span with original_size := some old_size }
    else span

/-- C7: the size and spacing normalizers are total functions of their
input (never raise): numbers pass through, a parsed numeric value with a
recognized suffix is converted by the fixed ratios pt→1, px→0.75, em→12,
rem→12, %→0.12, and an unparseable string falls back to the documented
default — 12.0pt for font-size, 0.0pt for letter-spacing. -/
theorem C7_normalizers_ratios_and_defaults :
    (∀ q : ℚ, normalize_font_size (SVal.num q) = q ∧
      normalize_letter_spacing (SVal.num q) = q) ∧
    (∀ s : String, pyParseNumUnit s = none →
      normalize_font_size (SVal.str s) = 12 ∧
      normalize_letter_spacing (SVal.str s) = 0) ∧
    (∀ (s : String) (v : ℚ) (u : UnitSuffix), pyParseNumUnit s = some (v, u) →
      normalize_font_size (SVal.str s) = v * unit_conversions u ∧
      normalize_letter_spacing (SVal.str s) = v * unit_conversions u) ∧
    (unit_conversions .pt = 1 ∧ unit_conversions .px = 3 / 4 ∧
      unit_conversions .em = 12 ∧ unit_conversions .rem = 12 ∧
      unit_conversions .pct = 12 / 100) ∧
    (normalize_font_size (SVal.str "16px") = 12 ∧
      normalize_font_size (SVal.str "2em") = 24 ∧
      normalize_font_size (SVal.str "150%") = 18 ∧
      normalize_font_size (SVal.str "garbage") = 12 ∧
      normalize_letter_spacing (SVal.str "nonsense") = 0 ∧
      normalize_letter_spacing (SVal.str "2.5px") = 15 / 8) := by
  have hpx : pyParseNumUnit "16px" = some (16, UnitSuffix.px) := rfl
  have hem : pyParseNumUnit "2em" = some (2, UnitSuffix.em) := rfl
  have hpc : pyParseNumUnit "150%" = some (150, UnitSuffix.pct) := rfl
  have hng : pyParseNumUnit "garbage" = none := rfl
  have hns : pyParseNumUnit "nonsense" = none := rfl
  have hfr : pyParseNumUnit "2.5px" = some (5 / 2, UnitSuffix.px) := by
    have h2 : pyParseNumUnit "2.5px" = some (2 + 5 / 10, UnitSuffix.px) := rfl
    rw [h2]; norm_num
  refine ⟨fun q => ⟨rfl, rfl⟩, fun s h => ?_, fun s v u h => ?_,
    by refine ⟨rfl, ?_, rfl, rfl, ?_⟩ <;> norm_num [unit_conversions], ?_⟩
  · simp [normalize_font_size, normalize_letter_spacing, h]
  · simp [normalize_font_size, normalize_letter_spacing, h]
  · refine ⟨?_, ?_, ?_, ?_, ?_, ?_⟩ <;>
      norm_num [normalize_font_size, normalize_letter_spacing,
        hpx, hem, hpc, hng, hns, hfr, unit_conversions]

/-- Witness for C7: the fallback branch at "garbage" and the px ratio at
"16px", obtained from the theorem at those concrete inputs. -/
theorem C7_witness :
    normalize_font_size (SVal.str "garbage") = 12 ∧
    normalize_font_size (SVal.str "16px") = 16 * unit_conversions UnitSuffix.px :=
  ⟨(C7_normalizers_ratios_and_defaults.2.1 "garbage" rfl).1,
   (C7_normalizers_ratios_and_defaults.2.2.1 "16px" 16 UnitSuffix.px rfl).1⟩

/-- C10: for every span carrying both `text` and `bbox` and every style map
whose font-size normalizes to a nonzero value, `reinsert_font_size` leaves
the bounding-box height unchanged and records `original_size` equal to the
*new* size: `old_size` is read back from the size field after it has been
overwritten, so the scale factor is 1 and the pre-edit size is lost. -/
theorem C10_reinsert_font_size_scale_is_one
    (span : Span) (style : StyleMap) (v : SVal)
    (hkey : style.font_size = some v) (hnz : normalize_font_size v ≠ 0)
    (htext : span.text.isSome) (hbox : span.bbox.isSome) :
    (reinsert_font_size span style).bbox.map BBox.height =
      span.bbox.map BBox.height ∧
    (reinsert_font_size span style).original_size =
      some (normalize_font_size v) ∧
    (reinsert_font_size span style).size = some (normalize_font_size v) := by
  obtain ⟨b, hb⟩ := Option.isSome_iff_exists.mp hbox
  have h1 : normalize_font_size v / normalize_font_size v = 1 := div_self hnz
  unfold reinsert_font_size
  rw [hkey]
  dsimp only
  cases hbl : span.baseline <;> simp [hb, hbl, htext, h1]

/-- Witness for C10: a span of size 8 resized to 24 keeps bbox height 10 and
records `original_size = 24` (the pre-edit 8 is lost). -/
theorem C10_witness :
    (reinsert_font_size
        { text := some "hi", bbox := some ⟨10, 40⟩, size := some 8 }
        { font_size := some (SVal.num 24) }).bbox.map BBox.height =
      some 10 ∧
    (reinsert_font_size
        { text := some "hi", bbox := some ⟨10, 40⟩, size := some 8 }
        { font_size := some (SVal.num 24) }).original_size = some 24 := by
  have h := C10_reinsert_font_size_scale_is_one
    { text := some "hi", bbox := some ⟨10, 40⟩, size := some 8 }
    { font_size := some (SVal.num 24) } (SVal.num 24) rfl (by decide)
    (by decide) (by decide)
  exact ⟨h.1, h.2.1⟩

/-! ## underline_handling.py and dashed_underline_handling.py -/

/-- Python substring containment, `needle in hay`. -/
def pyContains (needle hay : String) : Bool :=
  hay.data.tails.any (fun t => needle.data.isPrefixOf t)

/-- Python `str.split()` with no arguments: split on whitespace runs,
dropping empty pieces. -/
def pySplit (s : String) : List String :=
  (s.split Char.isWhitespace).filter (fun t => t ≠ "")

/-- The two fields of the `get_font_metrics` dict (font_mapping.py) that
`reinsert_underline` reads. -/
structure FontMetrics where
  underline_position : ℚ
  underline_thickness : ℚ
  deriving Repr, DecidableEq

set_option linter.unusedVariables false in
/-- Embedding of `get_font_metrics` (font_mapping.py), projected to the
fields `reinsert_underline` uses: the base dict has
`underline_position = -0.1` and `underline_thickness = 0.05`, and the
times/courier family adjustments never touch these two keys, so they are
the same for every font name. -/
def get_font_metrics (font_name : String) : FontMetrics :=
  ⟨-(1 / 10), 5 / 100⟩

/-- Embedding of `reinsert_underline` (underline_handling.py): when the
`text-decoration` value mentions "underline", set flag bit 2 (value 4),
record style/color parsed from the value, and write the per-style
underline geometry derived from the font size and font metrics.  When the
key is absent or its value does not mention "underline", the span is
returned untouched. -/
def reinsert_underline (span : Span) (style_dict : StyleMap) : Span :=
  match style_dict.text_decoration with
  | none => span
  | some decoration =>
    if pyContains "underline" decoration then
      let span := { span with flags := some (span.flags.getD 0 ||| 4) }
      let parts := pySplit decoration
      let style := parts.getD 1 "solid"
      let color := parts.drop 2
      let span := { span with underline_style := some style }
      let span := if color ≠ [] then { span with underline_color := some color } else span
      let font_size := span.size.getD 12
      let metrics := get_font_metrics (span.font.getD "helvetica")
      let position := font_size * metrics.underline_position
      let thickness := font_size * metrics.underline_thickness
      if style = "double" then
        { span with
            underline_positions := some [position, position - thickness * 3],
            underline_thickness := some thickness }
      else if style = "dotted" ∨ style = "dashed" then
        let span :=
          if style = "dotted" then
            { span with underline_dash := some [thickness, thickness * 2] }
          else
            { span with underline_dash := some [thickness * 3, thickness * 2] }
        { span with
            underline_position := some position,
            underline_thickness := some thickness }
      else if style = "wavy" then
        { span with underline_wave := some ⟨thickness * 2, font_size * (4 / 10), position⟩ }
      else
        { span with
            underline_position := some position,
            underline_thickness := some thickness }
    else span

/-- Embedding of `extract_dashed_underline` (dashed_underline_handling.py). -/
def extract_dashed_underline (span : Span) : String :=
  let flags := span.flags.getD 0
  if flags &&& 4 ≠ 0 then
    let style := span.underline_style.getD ""
    if style = "dashed" then "text-decoration-style: dashed;"
    else if style = "dotted" then "text-decoration-style: dotted;"
    else if style = "wavy" then "text-decoration-style: wavy;"
    else ""
  else ""

/-- Embedding of `reinsert_dashed_underline` (dashed_underline_handling.py):
for a recognized decoration style, set flag bit 2, record the style, and
(when the span has a size) write dash/wave geometry computed from it. -/
def reinsert_dashed_underline (span : Span) (style_dict : StyleMap) : Span :=
  match style_dict.text_decoration_style with
  | none => span
  | some style =>
    if style = "dashed" ∨ style = "dotted" ∨ style = "wavy" then
      let span :=
        { span with
            flags := some (span.flags.getD 0 ||| 4),
            underline_style := some style }
      match span.size with
      | some font_size =>
        let span :=
          if style = "dashed" then
            { span with
                dash_pattern := some [3 * font_size / 12, 2 * font_size / 12],
                underline_thickness := some (max (1 / 2) (font_size * (4 / 100))),
                underline_position := some (-font_size * (1 / 10)) }
          else if style = "dotted" then
            { span with
                dash_pattern := some [font_size / 12, 2 * font_size / 12],
                underline_thickness := some (max (1 / 2) (font_size * (8 / 100))),
                underline_position := some (-font_size * (1 / 10)) }
          else if style = "wavy" then
            { span with
                wave_amplitude := some (font_size * (5 / 100)),
                wave_length := some (font_size * (4 / 10)),
                underline_thickness := some (max (1 / 2) (font_size * (4 / 100))),
                underline_position := some (-font_size * (15 / 100)) }
          else span
        { span with baseline_offset := some (-font_size * (1 / 10)) }
      | none => span
    else span

/-- The dict returned by `calculate_dash_pattern` (dashed_underline_handling.py):
base keys thickness/offset plus per-style keys. -/
structure DashMetrics where
  thickness : ℚ
  offset : ℚ
  dash_length : Option ℚ := none
  gap_length : Option ℚ := none
  dot_diameter : Option ℚ := none
  wave_amplitude : Option ℚ := none
  wave_length : Option ℚ := none
  deriving Repr, DecidableEq

/-- Embedding of `calculate_dash_pattern` (dashed_underline_handling.py). -/
def calculate_dash_pattern (font_size : ℚ) (style : String) : DashMetrics :=
  let metrics : DashMetrics :=
    { thickness := max (1 / 2) (font_size * (4 / 100)), offset := -font_size * (1 / 10) }
  if style = "dashed" then
    { metrics with
        dash_length := some (3 * font_size / 12),
        gap_length := some (2 * font_size / 12) }
  else if style = "dotted" then
    { metrics with
        dot_diameter := some (font_size / 12),
        gap_length := some (2 * font_size / 12) }
  else if style = "wavy" then
    { metrics with
        wave_amplitude := some (font_size * (5 / 100)),
        wave_length := some (font_size * (4 / 10)) }
  else metrics

/-- Helper: or-ing in 4 always sets bit 2. -/
theorem lor_four_testBit_two (n : ℕ) : (n ||| 4).testBit 2 = true := by
  have h4 : (4 : ℕ).testBit 2 = true := by decide
  simp [Nat.testBit_lor, h4]

/-- Helper: or-ing in 4 makes the underline mask test nonzero. -/
theorem lor_four_land_four_ne_zero (n : ℕ) : (n ||| 4) &&& 4 ≠ 0 := by
  intro h
  have h4 : (4 : ℕ).testBit 2 = true := by decide
  have h2 := congrArg (fun m => m.testBit 2) h
  simp [Nat.testBit_land, Nat.testBit_lor, h4] at h2

/-- C2 (amended): after reinsertion, flag bit 2 (value 4, underline) is set
whenever an underline-style key is present — a `text-decoration` value
containing "underline" (reinsert_underline) or a `text-decoration-style`
value in {dashed, dotted, wavy} (reinsert_dashed_underline).  When the
decoration key is absent, or present with a value such as "none" that does
not mention underline, the span is returned entirely unchanged: a
previously set bit 2 is NOT cleared. -/
theorem C2_underline_bit_set_never_cleared (span : Span) (sd : StyleMap) :
    (∀ d, sd.text_decoration = some d → pyContains "underline" d = true →
      ((reinsert_underline span sd).flags.getD 0).testBit 2 = true) ∧
    (∀ st, sd.text_decoration_style = some st →
      st = "dashed" ∨ st = "dotted" ∨ st = "wavy" →
      ((reinsert_dashed_underline span sd).flags.getD 0).testBit 2 = true) ∧
    (sd.text_decoration = none → reinsert_underline span sd = span) ∧
    (∀ d, sd.text_decoration = some d → pyContains "underline" d = false →
      reinsert_underline span sd = span) := by
  have htb : Nat.testBit 4 2 = true := by decide
  refine ⟨fun d hd hu => ?_, fun st hst hmem => ?_, fun hn => ?_, fun d hd hu => ?_⟩
  · unfold reinsert_underline
    rw [hd]
    dsimp only
    rw [if_pos hu]
    split_ifs <;> simp [Nat.testBit_lor, htb]
  · unfold reinsert_dashed_underline
    rw [hst]
    dsimp only
    rw [if_pos hmem]
    cases hsz : span.size <;> dsimp only <;> (try split_ifs) <;>
      simp [Nat.testBit_lor, htb]
  · unfold reinsert_underline
    rw [hn]
  · unfold reinsert_underline
    rw [hd]
    dsimp only
    rw [if_neg (by simp [hu])]

/-- Witness for C2: a span with no prior flags gains bit 2 under a dashed
text-decoration edit, and a span with bit 2 set keeps its flags when the
decoration value is "none". -/
theorem C2_witness :
    ((reinsert_underline { } { text_decoration := some "underline dashed" }).flags.getD 0).testBit 2 = true ∧
    reinsert_underline { flags := some 4 } { text_decoration := some "none" } =
      { flags := some 4 } :=
  ⟨((C2_underline_bit_set_never_cleared { } { text_decoration := some "underline dashed" }).1)
      "underline dashed" rfl (by decide),
   ((C2_underline_bit_set_never_cleared { flags := some 4 }
      { text_decoration := some "none" }).2.2.2) "none" rfl (by decide)⟩

/-- C2 counterexample: the claim requires that a cleared decoration key
(absent, or set to "none") clears bit 2; but a span entering reinsertion
with bit 2 set keeps it in both cases. -/
theorem C2_counterexample :
    ((reinsert_underline { flags := some 4 }
        { text_decoration := some "none" }).flags.getD 0).testBit 2 = true ∧
    ((reinsert_underline { flags := some 4 } { }).flags.getD 0).testBit 2 = true ∧
    ((reinsert_dashed_underline { flags := some 4 } { }).flags.getD 0).testBit 2 = true := by
  refine ⟨?_, by decide, by decide⟩
  have h : reinsert_underline { flags := some 4 } { text_decoration := some "none" } =
      { flags := some 4 } := by
    unfold reinsert_underline
    dsimp only
    rw [if_neg (by decide)]
  rw [h]
  decide

/-- C6: reinserting `text-decoration-style: dashed` into a span that has a
size and then extracting yields exactly "text-decoration-style: dashed;",
and the dash geometry written to the span (dash length, gap length,
thickness, position) equals the corresponding fields of
`calculate_dash_pattern` at the same size — one deterministic function of
the font size in both places. -/
theorem C6_dashed_underline_round_trip (span : Span) (sd : StyleMap) (s : ℚ)
    (hsize : span.size = some s) (hkey : sd.text_decoration_style = some "dashed") :
    extract_dashed_underline (reinsert_dashed_underline span sd) =
      "text-decoration-style: dashed;" ∧
    (reinsert_dashed_underline span sd).dash_pattern =
      some [(calculate_dash_pattern s "dashed").dash_length.getD 0,
        (calculate_dash_pattern s "dashed").gap_length.getD 0] ∧
    (reinsert_dashed_underline span sd).underline_thickness =
      some (calculate_dash_pattern s "dashed").thickness ∧
    (reinsert_dashed_underline span sd).underline_position =
      some (calculate_dash_pattern s "dashed").offset := by
  have hr : reinsert_dashed_underline span sd =
      { span with
          flags := some (span.flags.getD 0 ||| 4),
          underline_style := some "dashed",
          dash_pattern := some [3 * s / 12, 2 * s / 12],
          underline_thickness := some (max (1 / 2) (s * (4 / 100))),
          underline_position := some (-s * (1 / 10)),
          baseline_offset := some (-s * (1 / 10)) } := by
    unfold reinsert_dashed_underline
    rw [hkey]
    simp [hsize]
  rw [hr]
  refine ⟨?_, by simp [calculate_dash_pattern], by simp [calculate_dash_pattern],
    by simp [calculate_dash_pattern]⟩
  unfold extract_dashed_underline
  simp [lor_four_land_four_ne_zero]

/-- Witness for C6: the round trip at font size 12pt — dash pattern [3, 2],
thickness 0.5, position -1.2. -/
theorem C6_witness :
    extract_dashed_underline (reinsert_dashed_underline { size := some 12 }
        { text_decoration_style := some "dashed" }) =
      "text-decoration-style: dashed;" ∧
    (reinsert_dashed_underline { size := some 12 }
        { text_decoration_style := some "dashed" }).dash_pattern =
      some [(calculate_dash_pattern 12 "dashed").dash_length.getD 0,
        (calculate_dash_pattern 12 "dashed").gap_length.getD 0] ∧
    (reinsert_dashed_underline { size := some 12 }
        { text_decoration_style := some "dashed" }).underline_thickness =
      some (calculate_dash_pattern 12 "dashed").thickness ∧
    (reinsert_dashed_underline { size := some 12 }
        { text_decoration_style := some "dashed" }).underline_position =
      some (calculate_dash_pattern 12 "dashed").offset :=
  C6_dashed_underline_round_trip { size := some 12 }
    { text_decoration_style := some "dashed" } 12 rfl rfl

/-! ## text_alignment_handling.py -/

/-- Values the `align` key of a block dict can hold: the OCR/codec layers
store either small ints (0..3, read through `align_map`) or strings. -/
inductive AVal where
  | anum (n : ℤ)
  | astr (t : String)
  deriving Repr, DecidableEq

/-- String form of an `align` value as an f-string renders it. -/
def avalStr : AVal → String
  | .anum n => toString n
  | .astr t => t

/-- Line dict inside a block: optional bbox and text. -/
structure PLine where
  bbox : Option Rect := none
  text : Option String := none
  deriving Repr, DecidableEq

/-- Block dict as the OCR pipeline and block-level handlers use it. -/
structure Block where
  number : Option ℕ := none
  bbox : Option Rect := none
  text : Option String := none
  lines : List PLine := []
  align : Option AVal := none
  line_height : Option ℚ := none
  preserve_whitespace : Option Bool := none
  deriving Repr, DecidableEq

/-- Python `max` of a (nonempty) list; 0 on the empty list, on which the
source never calls it. -/
def pyMax : List ℚ → ℚ
  | [] => 0
  | x :: xs => xs.foldl (fun a b => if a ≤ b then b else a) x

/-- Python `min` of a (nonempty) list; 0 on the empty list, on which the
source never calls it. -/
def pyMin : List ℚ → ℚ
  | [] => 0
  | x :: xs => xs.foldl (fun a b => if b ≤ a then b else a) x

/-- Embedding of `extract_text_align` (text_alignment_handling.py):
explicit `align` key first; otherwise compare the spread (max − min,
called "variance" in the source) of the left and right line edges against
1pt, then the spread of the line midpoints, defaulting to left. -/
def extract_text_align (block : Block) : String :=
  match block.align with
  | some v => "text-align: " ++ avalStr v ++ ";"
  | none =>
    if block.lines ≠ [] then
      let left_edges := (block.lines.filterMap (·.bbox)).map (·.x0)
      let right_edges := (block.lines.filterMap (·.bbox)).map (·.x1)
      if left_edges ≠ [] ∧ right_edges ≠ [] then
        let left_variance := pyMax left_edges - pyMin left_edges
        let right_variance := pyMax right_edges - pyMin right_edges
        if left_variance < 1 ∧ right_variance < 1 then "text-align: justify;"
        else if left_variance < 1 then "text-align: left;"
        else if right_variance < 1 then "text-align: right;"
        else
          let centers := (left_edges.zip right_edges).map (fun p => (p.1 + p.2) / 2)
          let center_variance := pyMax centers - pyMin centers
          if center_variance < 1 then "text-align: center;"
          else "text-align: left;"
      else "text-align: left;"
    else "text-align: left;"

/-- C5 counterexample: on the claim's center example — left edges
[10,40,25], right edges [100,130,115] — the line midpoints are 55, 85 and
70, whose spread (30) is not below 1pt, so the detector returns the
default "text-align: left;", not "text-align: center;". -/
theorem C5_counterexample :
    extract_text_align
      { lines := [{ bbox := some ⟨10, 0, 100, 10⟩ }, { bbox := some ⟨40, 10, 130, 20⟩ },
          { bbox := some ⟨25, 20, 115, 30⟩ }] } = "text-align: left;" ∧
    extract_text_align
      { lines := [{ bbox := some ⟨10, 0, 100, 10⟩ }, { bbox := some ⟨40, 10, 130, 20⟩ },
          { bbox := some ⟨25, 20, 115, 30⟩ }] } ≠ "text-align: center;" := by
  constructor <;> norm_num [extract_text_align, pyMax, pyMin, List.filterMap] <;> decide

/-- C5 (amended): for a block with no explicit alignment key the detector
returns "left" for left edges [10,10,10] with right edges [100,150,120]
(left spread < 1pt, right spread ≥ 1pt); for the claim's center example
(left [10,40,25], right [100,130,115]) the midpoints 55/85/70 do not
match, so it returns the default "left"; "center" is returned via the
midpoint comparison only when the midpoint spread is < 1pt, e.g. for left
edges [10,40,25] with right edges [100,70,85] (all midpoints 55). -/
theorem C5_alignment_detection :
    extract_text_align
      { lines := [{ bbox := some ⟨10, 0, 100, 10⟩ }, { bbox := some ⟨10, 10, 150, 20⟩ },
          { bbox := some ⟨10, 20, 120, 30⟩ }] } = "text-align: left;" ∧
    extract_text_align
      { lines := [{ bbox := some ⟨10, 0, 100, 10⟩ }, { bbox := some ⟨40, 10, 130, 20⟩ },
          { bbox := some ⟨25, 20, 115, 30⟩ }] } = "text-align: left;" ∧
    extract_text_align
      { lines := [{ bbox := some ⟨10, 0, 100, 10⟩ }, { bbox := some ⟨40, 10, 70, 20⟩ },
          { bbox := some ⟨25, 20, 85, 30⟩ }] } = "text-align: center;" := by
  refine ⟨?_, ?_, ?_⟩ <;> norm_num [extract_text_align, pyMax, pyMin, List.filterMap] <;>
    decide

/-! ## ocr_execution.py — OCRProcessor._convert_to_blocks -/

/-- One entry of the tesseract `image_to_data` dict: text, confidence,
engine block index, and box coordinates. -/
structure OCRWord where
  text : String
  conf : ℚ
  block_num : ℕ
  left : ℚ
  top : ℚ
  width : ℚ
  height : ℚ
  deriving Repr, DecidableEq

/-- The `fitz.Rect(left, top, left+width, top+height)` built for a word. -/
def wordRect (w : OCRWord) : Rect :=
  ⟨w.left, w.top, w.left + w.width, w.top + w.height⟩

/-- The loop-local `current_block` dict: number, running bbox union,
space-joined text (its `lines` key stays `[]` throughout). -/
structure CurBlock where
  number : ℕ
  bbox : Rect
  text : String
  deriving Repr, DecidableEq

/-- The block dict that `_convert_to_blocks` appends to its result. -/
def curToBlock (c : CurBlock) : Block :=
  { number := some c.number, bbox := some c.bbox, text := some c.text, lines := [] }

/-- A word is forwarded iff its stripped text is non-empty and its
confidence is not below 30 (the two `continue` guards of the loop). -/
def keepWord (w : OCRWord) : Bool :=
  !(pyStrip w.text = "") && !(w.conf < 30)

/-- The word loop of `_convert_to_blocks`: skip empty/low-confidence words,
start a new block when the engine block index changes, otherwise extend the
current block's text (space-joined) and bbox (running union). -/
def convertLoop : Option CurBlock → List OCRWord → List Block
  | cur, [] =>
    match cur with
    | none => []
    | some b => [curToBlock b]
  | cur, w :: ws =>
    let text := pyStrip w.text
    if text = "" then convertLoop cur ws
    else if w.conf < 30 then convertLoop cur ws
    else
      match cur with
      | none => convertLoop (some ⟨w.block_num, wordRect w, text⟩) ws
      | some b =>
        if b.number ≠ w.block_num then
          curToBlock b :: convertLoop (some ⟨w.block_num, wordRect w, text⟩) ws
        else
          convertLoop (some ⟨b.number, b.bbox.union (wordRect w), b.text ++ " " ++ text⟩) ws

/-- Embedding of `OCRProcessor._convert_to_blocks` (ocr_execution.py). -/
def convert_to_blocks (ws : List OCRWord) : List Block :=
  convertLoop none ws

/-- Helper: the conversion loop is invariant under pre-filtering by
`keepWord` — dropped words contribute nothing to any block. -/
theorem convertLoop_filter (ws : List OCRWord) (cur : Option CurBlock) :
    convertLoop cur ws = convertLoop cur (ws.filter keepWord) := by
  induction ws generalizing cur with
  | nil => rfl
  | cons w ws ih =>
    by_cases h1 : pyStrip w.text = ""
    · have hk : keepWord w = false := by simp [keepWord, h1]
      simp only [convertLoop, h1, if_pos rfl, List.filter_cons, hk, if_neg, Bool.false_eq_true,
        ite_false]
      exact ih cur
    · by_cases h2 : w.conf < 30
      · have hk : keepWord w = false := by simp [keepWord, h2]
        simp only [convertLoop, h1, h2, List.filter_cons, hk, Bool.false_eq_true, ite_false,
          ite_true, if_neg]
        exact ih cur
      · have hk : keepWord w = true := by simp [keepWord, h1, h2]
        cases cur with
        | none =>
          simp only [convertLoop, h1, h2, List.filter_cons, hk, ite_true, ite_false, if_neg,
            Bool.true_eq_false]
          exact ih _
        | some b =>
          by_cases h3 : b.number ≠ w.block_num <;>
            simp only [convertLoop, h1, h2, h3, List.filter_cons, hk, ite_true, ite_false,
              if_neg, not_true, not_false_iff] <;>
            simp [ih]

/-- C3: block construction forwards exactly the non-empty words with
confidence ≥ 30: the result is unchanged by pre-dropping the filtered-out
words, a list of only low-confidence words yields no blocks, and the
spec's example list with confidences 29("low")/30("mid")/100("high")
in one engine block yields exactly one block containing the words with
confidence 30 and 100. -/
theorem C3_confidence_filter (ws : List OCRWord) :
    convert_to_blocks ws = convert_to_blocks (ws.filter keepWord) ∧
    ((∀ w ∈ ws, w.conf < 30) → convert_to_blocks ws = []) ∧
    convert_to_blocks
        [⟨"low", 29, 1, 0, 0, 10, 10⟩, ⟨"mid", 30, 1, 10, 0, 10, 10⟩,
          ⟨"high", 100, 1, 20, 0, 10, 10⟩] =
      [{ number := some 1, bbox := some ⟨10, 0, 30, 10⟩, text := some "mid high",
          lines := [] }] := by
  refine ⟨convertLoop_filter ws none, fun hlow => ?_, ?_⟩
  · have h : ws.filter keepWord = [] := by
      rw [List.filter_eq_nil_iff]
      intro w hw
      simp [keepWord, hlow w hw]
    rw [convert_to_blocks, convertLoop_filter ws none, h]
    rfl
  · simp only [convert_to_blocks, convertLoop, keepWord, wordRect, curToBlock, Rect.union,
      qmin, qmax]
    norm_num
    decide

/-- Witness for C3: a single word of confidence 10 is dropped — the block
list is empty, and pre-filtering changes nothing. -/
theorem C3_witness :
    convert_to_blocks [⟨"x", 10, 1, 0, 0, 1, 1⟩] =
      convert_to_blocks ([⟨"x", 10, 1, 0, 0, 1, 1⟩].filter keepWord) ∧
    convert_to_blocks [⟨"x", 10, 1, 0, 0, 1, 1⟩] = ([] : List Block) :=
  ⟨(C3_confidence_filter [⟨"x", 10, 1, 0, 0, 1, 1⟩]).1,
   (C3_confidence_filter [⟨"x", 10, 1, 0, 0, 1, 1⟩]).2.1 (by
      intro w hw
      rw [List.mem_singleton] at hw
      subst hw
      norm_num)⟩

/-! ## difflib.SequenceMatcher (CPython stdlib), as invoked by
merge_similar_blocks with isjunk=None and default autojunk=True. -/

/-- Ascending positions of a character in `b`, as `__chain_b` builds `b2j`
by enumeration; with `isjunk=None` there is no junk, and autojunk removes
"popular" characters (count > len/100 + 1) when `len(b) >= 200`. -/
def b2j (b : List Char) (c : Char) : List ℕ :=
  let idxs := (b.enum.filter (fun p => p.2 = c)).map (fun p => p.1)
  if b.length ≥ 200 ∧ idxs.length > b.length / 100 + 1 then [] else idxs

/-- One inner-loop step of `find_longest_match`: for candidate position `j`
of `a[i]` in `b`, the chain length is `j2len.get(j-1, 0) + 1` (the dict
read returns 0 for the key -1 when `j = 0`); record it in the new row and
take the best if it beats the current one. -/
def flmRowStep (i : ℕ) (j2len : ℕ → ℕ) :
    ((ℕ → ℕ) × (ℕ × ℕ × ℕ)) → ℕ → ((ℕ → ℕ) × (ℕ × ℕ × ℕ))
  | (newj2len, best), j =>
    let k := (if j = 0 then 0 else j2len (j - 1)) + 1
    let newRow : ℕ → ℕ := fun x => if x = j then k else newj2len x
    let best2 := if best.2.2 < k then (i + 1 - k, j + 1 - k, k) else best
    (newRow, best2)

/-- One row (one `i` iteration) of `find_longest_match`: fold over the
positions of `a[i]` in `b` restricted to `[blo, bhi)` (the `continue` on
`j < blo` and `break` on `j >= bhi` over the ascending index list), with a
fresh `newj2len` row. -/
def flmRow (a b : List Char) (blo bhi i : ℕ) (j2len : ℕ → ℕ)
    (best : ℕ × ℕ × ℕ) : (ℕ → ℕ) × (ℕ × ℕ × ℕ) :=
  ((b2j b (a.getD i ' ')).filter (fun j => decide (blo ≤ j ∧ j < bhi))).foldl
    (flmRowStep i j2len) (fun _ => 0, best)

/-- The row loop `for i in range(alo, ahi)` of `find_longest_match`,
written with the remaining row count as the structural argument. -/
def flmRows (a b : List Char) (blo bhi : ℕ) : ℕ → ℕ → (ℕ → ℕ) → (ℕ × ℕ × ℕ) → (ℕ × ℕ × ℕ)
  | _, 0, _, best => best
  | i, n + 1, j2len, best =>
    let r := flmRow a b blo bhi i j2len best
    flmRows a b blo bhi (i + 1) n r.1 r.2

/-- The left extension loop of `find_longest_match` (`while besti > alo and
bestj > blo and a[besti-1] == b[bestj-1]`; the junk guard is vacuous with
`isjunk=None`).  Each pass decrements `besti` by one, so the loop runs at
most `besti` times: running it with fuel `besti` is exact. -/
def extendLeftFuel (a b : List Char) (alo blo : ℕ) : ℕ → ℕ × ℕ × ℕ → ℕ × ℕ × ℕ
  | 0, x => x
  | fuel + 1, (besti, bestj, bestsize) =>
    if alo < besti ∧ blo < bestj ∧ a.getD (besti - 1) ' ' = b.getD (bestj - 1) ' ' then
      extendLeftFuel a b alo blo fuel (besti - 1, bestj - 1, bestsize + 1)
    else (besti, bestj, bestsize)

/-- The right extension loop (`while besti+bestsize < ahi and ...`).  Each
pass increments `bestsize`, so fuel `ahi - (besti + bestsize)` is exact. -/
def extendRightFuel (a b : List Char) (ahi bhi : ℕ) : ℕ → ℕ × ℕ × ℕ → ℕ × ℕ × ℕ
  | 0, x => x
  | fuel + 1, (besti, bestj, bestsize) =>
    if besti + bestsize < ahi ∧ bestj + bestsize < bhi ∧
        a.getD (besti + bestsize) ' ' = b.getD (bestj + bestsize) ' ' then
      extendRightFuel a b ahi bhi fuel (besti, bestj, bestsize + 1)
    else (besti, bestj, bestsize)

/-- Embedding of `SequenceMatcher.find_longest_match` on `[alo,ahi) ×
[blo,bhi)`: the dynamic-programming row scan keeping the first best, then
the two non-junk extension passes (the junk-inclusive passes are no-ops
with an empty junk set). -/
def find_longest_match (a b : List Char) (alo ahi blo bhi : ℕ) : ℕ × ℕ × ℕ :=
  let best := flmRows a b blo bhi alo (ahi - alo) (fun _ => 0) (alo, blo, 0)
  let best := extendLeftFuel a b alo blo best.1 best
  extendRightFuel a b ahi bhi (ahi - (best.1 + best.2.2)) best

/-- Total size of the matching blocks collected by
`get_matching_blocks` over a window: the longest match plus the
recursively collected matches to its left and right (the queue order does
not affect the multiset of matches, and the final sort+merge of adjacent
blocks preserves the total size).  The recursion depth is bounded by the
window measure `(ahi-alo)+(bhi-blo)`, which shrinks at every recursive
call, so running with that fuel is exact. -/
def matchesFuel (a b : List Char) : ℕ → ℕ → ℕ → ℕ → ℕ → ℕ
  | 0, _, _, _, _ => 0
  | fuel + 1, alo, ahi, blo, bhi =>
    match find_longest_match a b alo ahi blo bhi with
    | (i, j, k) =>
      if k = 0 then 0
      else
        k + (if alo < i ∧ blo < j then matchesFuel a b fuel alo i blo j else 0) +
          (if i + k < ahi ∧ j + k < bhi then matchesFuel a b fuel (i + k) ahi (j + k) bhi
            else 0)

/-- Sum of the sizes of all matching blocks of the two sequences. -/
def matching_total (a b : List Char) : ℕ :=
  matchesFuel a b (a.length + b.length) 0 a.length 0 b.length

/-- Embedding of `difflib.SequenceMatcher(None, a, b).ratio()`:
`2.0 * matches / (len(a) + len(b))`, and 1.0 when both are empty
(`_calculate_ratio`). -/
def sm_similarity (a b : String) : ℚ :=
  let m := matching_total a.data b.data
  let length := a.data.length + b.data.length
  if length ≠ 0 then 2 * (m : ℚ) / (length : ℚ) else 1

/-! ## pdf_metadata.py and post_ocr_cleanup.py — block merging -/

/-- The dict returned by `PDFTextProperties.extract_block_properties`: it
can only ever hold the keys text-align, line-height and white-space. -/
structure BlockProps where
  text_align : Option String := none
  line_height : Option String := none
  white_space : Option String := none
  deriving Repr, DecidableEq

/-- Python `dict.get` on an extracted property dict.  Keys never stored —
including font-family and font-size, which `extract_block_properties`
never writes — return `none`. -/
def BlockProps.get (p : BlockProps) : String → Option String
  | "text-align" => p.text_align
  | "line-height" => p.line_height
  | "white-space" => p.white_space
  | _ => none

/-- The `align_map = {0: "left", 1: "center", 2: "right", 3: "justify"}`
lookup with default "left". -/
def align_map_get : AVal → String
  | .anum 0 => "left"
  | .anum 1 => "center"
  | .anum 2 => "right"
  | .anum 3 => "justify"
  | _ => "left"

/-- Embedding of `PDFTextProperties.extract_block_properties`
(pdf_metadata.py).  The exact Python float formatting of the line-height
string is abstracted by `toString`; none of the verified comparisons read
that key. -/
def extract_block_properties (block : Block) : BlockProps :=
  { text_align := block.align.map align_map_get,
    line_height := block.line_height.map (fun h => toString h ++ "pt"),
    white_space := block.preserve_whitespace.map (fun b => if b then "pre" else "normal") }

/-- The `props_match` conjunction of `merge_similar_blocks`: equality of
the extracted font-family, font-size and text-align entries (the first
two are never produced, so they always compare equal as `None`). -/
def props_match (p q : BlockProps) : Bool :=
  ["font-family", "font-size", "text-align"].all (fun prop => p.get prop == q.get prop)

/-- The accumulator loop of `merge_similar_blocks`: when the properties
match, both blocks carry text, and the `SequenceMatcher` ratio reaches the
threshold, the next block's lines are appended to the current block (its
text is left as is); otherwise the current block is emitted and the next
becomes current. -/
def mergeLoop (threshold : ℚ) : Option Block → List Block → List Block
  | none, [] => []
  | some cb, [] => [cb]
  | none, b :: rest => mergeLoop threshold (some b) rest
  | some cb, b :: rest =>
    if props_match (extract_block_properties cb) (extract_block_properties b) ∧
        cb.text.isSome ∧ b.text.isSome then
      if sm_similarity (cb.text.getD "") (b.text.getD "") ≥ threshold then
        mergeLoop threshold (some { cb with lines := cb.lines ++ b.lines }) rest
      else cb :: mergeLoop threshold (some b) rest
    else cb :: mergeLoop threshold (some b) rest

/-- Embedding of `merge_similar_blocks` (post_ocr_cleanup.py); the source's
default threshold is 0.85 = 17/20. -/
def merge_similar_blocks (threshold : ℚ) (blocks : List Block) : List Block :=
  mergeLoop threshold none blocks

/-- C4: two adjacent blocks merge exactly when their extracted
font-family/font-size/text-align properties match (the first two are never
produced by extraction, so they always compare equal) and their
SequenceMatcher ratio is ≥ 0.85; merging appends the second block's lines
to the first and leaves the first block's text unchanged.  In particular
"Hello world"/"Hello wordl" (ratio 10/11) merge and
"Hello world"/"Goodbye" (ratio 1/9) do not. -/
theorem C4_merge_similar_blocks (b1 b2 : Block) (t1 t2 : String)
    (h1 : b1.text = some t1) (h2 : b2.text = some t2) :
    (merge_similar_blocks (17 / 20) [b1, b2] =
      if props_match (extract_block_properties b1) (extract_block_properties b2) ∧
          sm_similarity t1 t2 ≥ 17 / 20 then
        [{ b1 with lines := b1.lines ++ b2.lines }]
      else [b1, b2]) ∧
    ({ b1 with lines := b1.lines ++ b2.lines } : Block).text = some t1 ∧
    merge_similar_blocks (17 / 20)
        [{ text := some "Hello world", align := some (.anum 0),
            lines := [{ text := some "Hello world" }] },
          { text := some "Hello wordl", align := some (.anum 0),
            lines := [{ text := some "Hello wordl" }] }] =
      [{ text := some "Hello world", align := some (.anum 0),
          lines := [{ text := some "Hello world" }, { text := some "Hello wordl" }] }] ∧
    merge_similar_blocks (17 / 20)
        [{ text := some "Hello world", align := some (.anum 0),
            lines := [{ text := some "Hello world" }] },
          { text := some "Goodbye", align := some (.anum 0),
            lines := [{ text := some "Goodbye" }] }] =
      [{ text := some "Hello world", align := some (.anum 0),
          lines := [{ text := some "Hello world" }] },
        { text := some "Goodbye", align := some (.anum 0),
          lines := [{ text := some "Goodbye" }] }] := by
  have hgen : ∀ (c1 c2 : Block) (s1 s2 : String), c1.text = some s1 → c2.text = some s2 →
      merge_similar_blocks (17 / 20) [c1, c2] =
        if props_match (extract_block_properties c1) (extract_block_properties c2) ∧
            sm_similarity s1 s2 ≥ 17 / 20 then
          [{ c1 with lines := c1.lines ++ c2.lines }]
        else [c1, c2] := by
    intro c1 c2 s1 s2 hc1 hc2
    simp only [merge_similar_blocks, mergeLoop, hc1, hc2, Option.isSome_some, and_true,
      Option.getD_some]
    by_cases hp : props_match (extract_block_properties c1) (extract_block_properties c2) = true
    · by_cases hs : sm_similarity s1 s2 ≥ 17 / 20
      · simp [mergeLoop, hp, hs]
      · simp [mergeLoop, hp, hs]
    · simp [mergeLoop, hp]
  have hs1 : sm_similarity "Hello world" "Hello wordl" ≥ 17 / 20 := by
    have hm : matching_total "Hello world".data "Hello wordl".data = 10 := by decide
    norm_num [sm_similarity, hm]
  have hs2 : ¬ sm_similarity "Hello world" "Goodbye" ≥ 17 / 20 := by
    have hm : matching_total "Hello world".data "Goodbye".data = 1 := by decide
    norm_num [sm_similarity, hm]
  refine ⟨hgen b1 b2 t1 t2 h1 h2, h1, ?_, ?_⟩
  · rw [hgen _ _ "Hello world" "Hello wordl" rfl rfl, if_pos ⟨by decide, hs1⟩]
    rfl
  · rw [hgen _ _ "Hello world" "Goodbye" rfl rfl,
      if_neg (fun hand => hs2 hand.2)]

/-- Witness for C4: the merge criterion applied to the two Hello blocks. -/
theorem C4_witness :
    merge_similar_blocks (17 / 20)
        [{ text := some "Hello world", align := some (.anum 0),
            lines := [{ text := some "Hello world" }] },
          { text := some "Hello wordl", align := some (.anum 0),
            lines := [{ text := some "Hello wordl" }] }] =
      (if props_match
            (extract_block_properties
              { text := some "Hello world", align := some (.anum 0),
                lines := [{ text := some "Hello world" }] })
            (extract_block_properties
              { text := some "Hello wordl", align := some (.anum 0),
                lines := [{ text := some "Hello wordl" }] }) ∧
          sm_similarity "Hello world" "Hello wordl" ≥ 17 / 20 then
        [{ text := some "Hello world", align := some (.anum 0),
            lines := [{ text := some "Hello world" }, { text := some "Hello wordl" }] }]
      else
        [{ text := some "Hello world", align := some (.anum 0),
            lines := [{ text := some "Hello world" }] },
          { text := some "Hello wordl", align := some (.anum 0),
            lines := [{ text := some "Hello wordl" }] }]) :=
  (C4_merge_similar_blocks
    { text := some "Hello world", align := some (.anum 0),
      lines := [{ text := some "Hello world" }] }
    { text := some "Hello wordl", align := some (.anum 0),
      lines := [{ text := some "Hello wordl" }] }
    "Hello world" "Hello wordl" rfl rfl).1

/-! ## ocr_preprocessing.py — get_adaptive_threshold (Otsu) -/

/-- Read histogram bin `t` (`hist[t]`; 0 beyond the end, never hit on the
256-entry histograms the source passes). -/
def histGet (hist : List ℕ) (t : ℕ) : ℕ :=
  hist.getD t 0

/-- Background weight before processing bin `t`: `sum(hist[0..t-1])`. -/
def wbgAt (hist : List ℕ) (t : ℕ) : ℕ :=
  ∑ i ∈ Finset.range t, histGet hist i

/-- Background weighted sum before processing bin `t`. -/
def sbgAt (hist : List ℕ) (t : ℕ) : ℕ :=
  ∑ i ∈ Finset.range t, i * histGet hist i

/-- The foreground weighted sum the loop body recomputes at bin `t`:
`sum(i * hist[i] for i in range(t+1, 256))`. -/
def sfgAt (hist : List ℕ) (t : ℕ) : ℕ :=
  ∑ i ∈ Finset.Ico (t + 1) 256, i * histGet hist i

/-- Inter-class variance of the cut after bin `t`, exactly as the loop body
computes it: background = bins 0..t, foreground = bins t+1..255, value 0
when either class is empty (the loop's `continue`/`break` guards). -/
def interClassVariance (hist : List ℕ) (t : ℕ) : ℚ :=
  let w1 := wbgAt hist (t + 1)
  let w2 := hist.sum - wbgAt hist (t + 1)
  if w1 = 0 ∨ w2 = 0 then 0
  else
    let m1 : ℚ := (sbgAt hist (t + 1) : ℚ) / (w1 : ℚ)
    let m2 : ℚ := (sfgAt hist t : ℚ) / (w2 : ℚ)
    (w1 : ℚ) * (w2 : ℚ) * (m1 - m2) ^ 2

/-- The scan loop of `get_adaptive_threshold`, one call per bin `t` with
`n` bins left: accumulate `weight_bg`/`sum_bg`, `continue` while the
background is empty, `break` when the foreground empties, and keep the
first bin whose variance strictly exceeds the maximum so far. -/
def otsuLoop (hist : List ℕ) (total : ℕ) :
    ℕ → ℕ → ℕ → ℕ → ℚ → ℕ → ℕ
  | _, 0, _, _, _, threshold => threshold
  | t, n + 1, weight_bg, sum_bg, max_variance, threshold =>
    let weight_bg := weight_bg + histGet hist t
    if weight_bg = 0 then
      otsuLoop hist total (t + 1) n weight_bg sum_bg max_variance threshold
    else
      let weight_fg := total - weight_bg
      if weight_fg = 0 then threshold
      else
        let sum_bg := sum_bg + t * histGet hist t
        let mean_bg : ℚ := (sum_bg : ℚ) / (weight_bg : ℚ)
        let mean_fg : ℚ := (sfgAt hist t : ℚ) / (weight_fg : ℚ)
        let variance : ℚ := (weight_bg : ℚ) * (weight_fg : ℚ) * (mean_bg - mean_fg) ^ 2
        if max_variance < variance then
          otsuLoop hist total (t + 1) n weight_bg sum_bg variance t
        else
          otsuLoop hist total (t + 1) n weight_bg sum_bg max_variance threshold

/-- Embedding of `get_adaptive_threshold` (ocr_preprocessing.py): Otsu scan
over the 256 histogram bins. -/
def get_adaptive_threshold (hist : List ℕ) : ℕ :=
  otsuLoop hist hist.sum 0 256 0 0 0 0

/-- Histogram with all mass in two spike bins `p1` and `p2`. -/
def spikeHist (p1 p2 n1 n2 : ℕ) : List ℕ :=
  (List.range 256).map (fun i => if i = p1 then n1 else if i = p2 then n2 else 0)

/-- A list sum equals the sum of its `getD` reads over its index range. -/
theorem sum_eq_sum_range_getD (l : List ℕ) :
    l.sum = ∑ i ∈ Finset.range l.length, l.getD i 0 := by
  induction l with
  | nil => simp
  | cons a l ih =>
    rw [List.sum_cons, List.length_cons, Finset.sum_range_succ']
    simp only [List.getD_cons_succ, List.getD_cons_zero]
    rw [← ih]
    ring

/-- Background weight at a cut at or past the end of the histogram is the
whole mass. -/
theorem wbgAt_eq_sum_of_ge (hist : List ℕ) {t : ℕ} (h : hist.length ≤ t) :
    wbgAt hist t = hist.sum := by
  rw [sum_eq_sum_range_getD, wbgAt]
  refine (Finset.sum_subset (Finset.range_subset.2 h) ?_).symm
  intro x _ hx
  rw [Finset.mem_range, not_lt] at hx
  exact List.getD_eq_default _ _ hx

/-- Background weight is monotone in the cut. -/
theorem wbgAt_mono (hist : List ℕ) {t t' : ℕ} (h : t ≤ t') :
    wbgAt hist t ≤ wbgAt hist t' :=
  Finset.sum_le_sum_of_subset (Finset.range_subset.2 h)

/-- Background weight never exceeds the total mass. -/
theorem wbgAt_le_sum (hist : List ℕ) (t : ℕ) : wbgAt hist t ≤ hist.sum := by
  rcases le_total t hist.length with h | h
  · rw [sum_eq_sum_range_getD]
    exact Finset.sum_le_sum_of_subset (Finset.range_subset.2 h)
  · rw [wbgAt_eq_sum_of_ge hist h]

/-- Inter-class variance is nonnegative. -/
theorem interClassVariance_nonneg (hist : List ℕ) (t : ℕ) :
    0 ≤ interClassVariance hist t := by
  rw [interClassVariance]
  dsimp only
  split_ifs with h
  · exact le_refl 0
  · exact mul_nonneg (mul_nonneg (Nat.cast_nonneg _) (Nat.cast_nonneg _)) (sq_nonneg _)

/-- Invariant proof for the Otsu scan: from any loop state whose
accumulators agree with the prefix sums, whose running maximum dominates
all variances already scanned, is attained at the running threshold, and
strictly exceeds every variance before that threshold, the loop returns a
bin whose variance dominates every bin's variance and is the first such
bin. -/
theorem otsuLoop_argmax (hist : List ℕ) :
    ∀ (n t wacc sacc : ℕ) (maxv : ℚ) (thr : ℕ),
      t + n = 256 →
      wacc = wbgAt hist t →
      sacc = sbgAt hist t →
      0 ≤ maxv →
      (interClassVariance hist thr = maxv ∨ (thr = 0 ∧ maxv = 0)) →
      (∀ i, i < t → interClassVariance hist i ≤ maxv) →
      (∀ i, i < thr → interClassVariance hist i < maxv) →
      (∀ i, i < 256 →
          interClassVariance hist i ≤
            interClassVariance hist
              (otsuLoop hist hist.sum t n wacc sacc maxv thr)) ∧
        (∀ i, i < otsuLoop hist hist.sum t n wacc sacc maxv thr →
          interClassVariance hist i <
            interClassVariance hist
              (otsuLoop hist hist.sum t n wacc sacc maxv thr)) := by
  intro n
  induction n with
  | zero =>
    intro t wacc sacc maxv thr htn hw hs hm hthr hprev hfirst
    have ht : t = 256 := by omega
    subst ht
    have hvthr : interClassVariance hist thr = maxv := by
      rcases hthr with h | ⟨h0, hm0⟩
      · exact h
      · subst h0
        subst hm0
        have h1 := hprev 0 (by omega)
        have h2 := interClassVariance_nonneg hist 0
        exact le_antisymm h1 h2
    rw [otsuLoop]
    exact ⟨fun i hi => hvthr ▸ hprev i hi, fun i hi => hvthr ▸ hfirst i hi⟩
  | succ n ih =>
    intro t wacc sacc maxv thr htn hw hs hm hthr hprev hfirst
    subst hw
    subst hs
    have ht256 : t < 256 := by omega
    have hwsucc : wbgAt hist t + histGet hist t = wbgAt hist (t + 1) := by
      rw [wbgAt, wbgAt, Finset.sum_range_succ]
    have hssucc : sbgAt hist t + t * histGet hist t = sbgAt hist (t + 1) := by
      rw [sbgAt, sbgAt, Finset.sum_range_succ]
    rw [otsuLoop]
    dsimp only
    rw [hwsucc, hssucc]
    by_cases h0 : wbgAt hist (t + 1) = 0
    · rw [if_pos h0]
      have hg0 : histGet hist t = 0 := by
        have := hwsucc
        omega
      have hvt : interClassVariance hist t = 0 := by
        rw [interClassVariance]
        dsimp only
        rw [if_pos (Or.inl h0)]
      have hsacc : sbgAt hist t = sbgAt hist (t + 1) := by
        rw [← hssucc, hg0]
        ring
      exact ih (t + 1) (wbgAt hist (t + 1)) (sbgAt hist t) maxv thr (by omega) rfl hsacc hm hthr
        (fun i hi => by
          rcases Nat.lt_succ_iff_lt_or_eq.mp hi with h | h
          · exact hprev i h
          · subst h
            rw [hvt]
            exact hm)
        hfirst
    · rw [if_neg h0]
      by_cases hfg : hist.sum - wbgAt hist (t + 1) = 0
      · rw [if_pos hfg]
        have hvthr : interClassVariance hist thr = maxv := by
          rcases hthr with h | ⟨h0', hm0⟩
          · exact h
          · subst h0'
            subst hm0
            rcases Nat.eq_zero_or_pos t with ht0 | ht0
            · subst ht0
              rw [interClassVariance]
              dsimp only
              rw [if_pos (Or.inr hfg)]
            · have h1 := hprev 0 (by omega)
              have h2 := interClassVariance_nonneg hist 0
              exact le_antisymm h1 h2
        have hlate : ∀ i, t ≤ i → interClassVariance hist i = 0 := by
          intro i hi
          have hmono : wbgAt hist (t + 1) ≤ wbgAt hist (i + 1) := wbgAt_mono hist (by omega)
          have hle := wbgAt_le_sum hist (i + 1)
          rw [interClassVariance]
          dsimp only
          rw [if_pos (Or.inr (by omega))]
        refine ⟨fun i hi => ?_, fun i hi => hvthr ▸ hfirst i hi⟩
        rcases lt_or_le i t with h | h
        · exact hvthr ▸ hprev i h
        · rw [hlate i h, hvthr]
          exact hm
      · rw [if_neg hfg]
        have hvart : interClassVariance hist t =
            (wbgAt hist (t + 1) : ℚ) * ((hist.sum - wbgAt hist (t + 1) : ℕ) : ℚ) *
              ((sbgAt hist (t + 1) : ℚ) / (wbgAt hist (t + 1) : ℚ) -
                (sfgAt hist t : ℚ) / ((hist.sum - wbgAt hist (t + 1) : ℕ) : ℚ)) ^ 2 := by
          rw [interClassVariance]
          dsimp only
          rw [if_neg (by push_neg; exact ⟨h0, hfg⟩)]
        by_cases hlt : maxv <
            (wbgAt hist (t + 1) : ℚ) * ((hist.sum - wbgAt hist (t + 1) : ℕ) : ℚ) *
              ((sbgAt hist (t + 1) : ℚ) / (wbgAt hist (t + 1) : ℚ) -
                (sfgAt hist t : ℚ) / ((hist.sum - wbgAt hist (t + 1) : ℕ) : ℚ)) ^ 2
        · rw [if_pos hlt]
          exact ih (t + 1) (wbgAt hist (t + 1)) (sbgAt hist (t + 1)) _ t (by omega) rfl rfl
            (le_trans hm (le_of_lt hlt)) (Or.inl hvart)
            (fun i hi => by
              rcases Nat.lt_succ_iff_lt_or_eq.mp hi with h | h
              · exact le_of_lt (lt_of_le_of_lt (hprev i h) hlt)
              · subst h
                rw [hvart])
            (fun i hi => lt_of_le_of_lt (hprev i hi) hlt)
        · rw [if_neg hlt]
          exact ih (t + 1) (wbgAt hist (t + 1)) (sbgAt hist (t + 1)) maxv thr (by omega) rfl rfl hm hthr
            (fun i hi => by
              rcases Nat.lt_succ_iff_lt_or_eq.mp hi with h | h
              · exact hprev i h
              · subst h
                rw [hvart]
                exact le_of_not_lt hlt)
            hfirst

/-- The returned threshold maximizes the inter-class variance over all
256 bins, and is the first bin attaining that maximum. -/
theorem otsu_argmax (hist : List ℕ) :
    (∀ t, t < 256 →
      interClassVariance hist t ≤
        interClassVariance hist (get_adaptive_threshold hist)) ∧
    (∀ t, t < get_adaptive_threshold hist →
      interClassVariance hist t <
        interClassVariance hist (get_adaptive_threshold hist)) := by
  have hw0 : (0 : ℕ) = wbgAt hist 0 := by simp [wbgAt]
  have hs0 : (0 : ℕ) = sbgAt hist 0 := by simp [sbgAt]
  exact otsuLoop_argmax hist 256 0 0 0 0 0 rfl hw0 hs0 (le_refl 0)
    (Or.inr ⟨rfl, rfl⟩) (fun i hi => absurd hi (by omega))
    (fun i hi => absurd hi (by omega))

/-- Bin reads of a two-spike histogram. -/
theorem spike_histGet (p1 p2 n1 n2 : ℕ) (hp1 : p1 < 256) (hp2 : p2 < 256)
    (hne : p1 ≠ p2) (i : ℕ) :
    histGet (spikeHist p1 p2 n1 n2) i =
      (if i = p1 then n1 else 0) + (if i = p2 then n2 else 0) := by
  rcases lt_or_le i 256 with h | h
  · rw [histGet, spikeHist, List.getD_eq_getElem?_getD, List.getElem?_map,
      List.getElem?_range h]
    by_cases e1 : i = p1 <;> by_cases e2 : i = p2 <;> simp_all
  · rw [histGet, List.getD_eq_default _ _ (by simp [spikeHist]; omega)]
    rw [if_neg (by omega), if_neg (by omega)]

/-- Background weight of a two-spike histogram at any cut. -/
theorem spike_wbgAt (p1 p2 n1 n2 : ℕ) (hp1 : p1 < 256) (hp2 : p2 < 256)
    (hne : p1 ≠ p2) (m : ℕ) :
    wbgAt (spikeHist p1 p2 n1 n2) m =
      (if p1 < m then n1 else 0) + (if p2 < m then n2 else 0) := by
  rw [wbgAt,
    Finset.sum_congr rfl fun i _ => spike_histGet p1 p2 n1 n2 hp1 hp2 hne i,
    Finset.sum_add_distrib,
    Finset.sum_ite_eq' (Finset.range m) p1 (fun _ => n1),
    Finset.sum_ite_eq' (Finset.range m) p2 (fun _ => n2)]
  simp [Finset.mem_range]

/-- Background weighted sum of a two-spike histogram at any cut. -/
theorem spike_sbgAt (p1 p2 n1 n2 : ℕ) (hp1 : p1 < 256) (hp2 : p2 < 256)
    (hne : p1 ≠ p2) (m : ℕ) :
    sbgAt (spikeHist p1 p2 n1 n2) m =
      (if p1 < m then p1 * n1 else 0) + (if p2 < m then p2 * n2 else 0) := by
  have hpt : ∀ i ∈ Finset.range m, i * histGet (spikeHist p1 p2 n1 n2) i =
      (if i = p1 then i * n1 else 0) + (if i = p2 then i * n2 else 0) := by
    intro i _
    rw [spike_histGet p1 p2 n1 n2 hp1 hp2 hne i]
    by_cases e1 : i = p1 <;> by_cases e2 : i = p2 <;> simp_all [Nat.mul_add]
  rw [sbgAt, Finset.sum_congr rfl hpt, Finset.sum_add_distrib,
    Finset.sum_ite_eq' (Finset.range m) p1 (fun i => i * n1),
    Finset.sum_ite_eq' (Finset.range m) p2 (fun i => i * n2)]
  simp [Finset.mem_range]

/-- Foreground weighted sum of a two-spike histogram at any cut. -/
theorem spike_sfgAt (p1 p2 n1 n2 : ℕ) (hp1 : p1 < 256) (hp2 : p2 < 256)
    (hne : p1 ≠ p2) (t : ℕ) :
    sfgAt (spikeHist p1 p2 n1 n2) t =
      (if t < p1 then p1 * n1 else 0) + (if t < p2 then p2 * n2 else 0) := by
  have hpt : ∀ i ∈ Finset.Ico (t + 1) 256, i * histGet (spikeHist p1 p2 n1 n2) i =
      (if i = p1 then i * n1 else 0) + (if i = p2 then i * n2 else 0) := by
    intro i _
    rw [spike_histGet p1 p2 n1 n2 hp1 hp2 hne i]
    by_cases e1 : i = p1 <;> by_cases e2 : i = p2 <;> simp_all [Nat.mul_add]
  rw [sfgAt, Finset.sum_congr rfl hpt, Finset.sum_add_distrib,
    Finset.sum_ite_eq' (Finset.Ico (t + 1) 256) p1 (fun i => i * n1),
    Finset.sum_ite_eq' (Finset.Ico (t + 1) 256) p2 (fun i => i * n2)]
  simp only [Finset.mem_Ico]
  congr 1
  · by_cases h : t < p1
    · rw [if_pos ⟨by omega, hp1⟩, if_pos h]
    · rw [if_neg (by omega), if_neg h]
  · by_cases h : t < p2
    · rw [if_pos ⟨by omega, hp2⟩, if_pos h]
    · rw [if_neg (by omega), if_neg h]

/-- Total mass of a two-spike histogram. -/
theorem spike_sum (p1 p2 n1 n2 : ℕ) (hp1 : p1 < 256) (hp2 : p2 < 256)
    (hne : p1 ≠ p2) :
    (spikeHist p1 p2 n1 n2).sum = n1 + n2 := by
  have hlen : (spikeHist p1 p2 n1 n2).length = 256 := by simp [spikeHist]
  rw [sum_eq_sum_range_getD, hlen,
    show (∑ i ∈ Finset.range 256, (spikeHist p1 p2 n1 n2).getD i 0) =
      wbgAt (spikeHist p1 p2 n1 n2) 256 from rfl,
    spike_wbgAt p1 p2 n1 n2 hp1 hp2 hne 256, if_pos hp1, if_pos hp2]

/-- Inter-class variance of a two-spike histogram: a constant positive
plateau on the cuts separating the spikes, zero elsewhere. -/
theorem spike_variance (p1 p2 n1 n2 : ℕ) (h12 : p1 < p2) (hp2 : p2 < 256)
    (hn1 : 0 < n1) (hn2 : 0 < n2) (t : ℕ) :
    interClassVariance (spikeHist p1 p2 n1 n2) t =
      if p1 ≤ t ∧ t < p2 then (n1 : ℚ) * (n2 : ℚ) * ((p1 : ℚ) - (p2 : ℚ)) ^ 2
      else 0 := by
  have hp1 : p1 < 256 := by omega
  have hne : p1 ≠ p2 := by omega
  rw [interClassVariance]
  dsimp only
  rw [spike_wbgAt p1 p2 n1 n2 hp1 hp2 hne (t + 1),
    spike_sum p1 p2 n1 n2 hp1 hp2 hne,
    spike_sbgAt p1 p2 n1 n2 hp1 hp2 hne (t + 1),
    spike_sfgAt p1 p2 n1 n2 hp1 hp2 hne t]
  by_cases hc : p1 ≤ t ∧ t < p2
  · rw [if_pos hc]
    have e1 : (p1 < t + 1) = True := eq_true (by omega)
    have e2 : (p2 < t + 1) = False := eq_false (by omega)
    have e3 : (t < p1) = False := eq_false (by omega)
    have e4 : (t < p2) = True := eq_true (by omega)
    simp only [e1, e2, e3, e4, if_true, if_false, add_zero, zero_add]
    rw [if_neg (by push_neg; constructor <;> omega)]
    have e5 : n1 + n2 - n1 = n2 := by omega
    rw [e5]
    have hq1 : (n1 : ℚ) ≠ 0 := Nat.cast_ne_zero.mpr (by omega)
    have hq2 : (n2 : ℚ) ≠ 0 := Nat.cast_ne_zero.mpr (by omega)
    push_cast
    rw [mul_div_assoc, div_self hq1, mul_div_assoc, div_self hq2]
    ring
  · rw [if_neg hc]
    rcases lt_or_le t p1 with h | h
    · have e1 : (p1 < t + 1) = False := eq_false (by omega)
      have e2 : (p2 < t + 1) = False := eq_false (by omega)
      simp only [e1, e2, if_false, add_zero]
      simp
    · have e1 : (p1 < t + 1) = True := eq_true (by omega)
      have e2 : (p2 < t + 1) = True := eq_true (by omega)
      simp only [e1, e2, if_true]
      rw [if_pos (Or.inr (by omega))]


/-- For a two-spike histogram the Otsu scan returns exactly the lower
spike position: the variance plateau starts at `p1` and the loop keeps the
first maximizer. -/
theorem otsu_spike_threshold (p1 p2 n1 n2 : ℕ) (h12 : p1 < p2) (hp2 : p2 < 256)
    (hn1 : 0 < n1) (hn2 : 0 < n2) :
    get_adaptive_threshold (spikeHist p1 p2 n1 n2) = p1 := by
  obtain ⟨hmax, hfirst⟩ := otsu_argmax (spikeHist p1 p2 n1 n2)
  have hV : (0 : ℚ) < (n1 : ℚ) * (n2 : ℚ) * ((p1 : ℚ) - (p2 : ℚ)) ^ 2 := by
    have hne : ((p1 : ℚ) - (p2 : ℚ)) ≠ 0 := by
      rw [sub_ne_zero]
      exact_mod_cast fun h => absurd h (by omega)
    have hsq : (0 : ℚ) < ((p1 : ℚ) - (p2 : ℚ)) ^ 2 := by
      have h2 := sq_nonneg ((p1 : ℚ) - (p2 : ℚ))
      rcases h2.lt_or_eq with h3 | h3
      · exact h3
      · exact absurd (pow_eq_zero_iff (by norm_num) |>.mp h3.symm) hne
    have c1 : (0 : ℚ) < (n1 : ℚ) := by exact_mod_cast hn1
    have c2 : (0 : ℚ) < (n2 : ℚ) := by exact_mod_cast hn2
    exact mul_pos (mul_pos c1 c2) hsq
  have hvp1 : interClassVariance (spikeHist p1 p2 n1 n2) p1 =
      (n1 : ℚ) * (n2 : ℚ) * ((p1 : ℚ) - (p2 : ℚ)) ^ 2 := by
    rw [spike_variance p1 p2 n1 n2 h12 hp2 hn1 hn2 p1, if_pos ⟨le_refl p1, h12⟩]
  have h1 := hmax p1 (by omega)
  rw [hvp1] at h1
  have hvr := spike_variance p1 p2 n1 n2 h12 hp2 hn1 hn2
    (get_adaptive_threshold (spikeHist p1 p2 n1 n2))
  have hrange : p1 ≤ get_adaptive_threshold (spikeHist p1 p2 n1 n2) ∧
      get_adaptive_threshold (spikeHist p1 p2 n1 n2) < p2 := by
    by_contra hc
    rw [if_neg hc] at hvr
    rw [hvr] at h1
    linarith
  rcases eq_or_lt_of_le hrange.1 with he | hlt
  · exact he.symm
  · exfalso
    have hstrict := hfirst p1 hlt
    rw [hvp1, hvr, if_pos hrange] at hstrict
    exact lt_irrefl _ hstrict

/-- The scan never returns a bin outside 0..255. -/
theorem otsuLoop_lt_256 (hist : List ℕ) (total : ℕ) :
    ∀ (n t wacc sacc : ℕ) (maxv : ℚ) (thr : ℕ), t + n = 256 → thr < 256 →
      otsuLoop hist total t n wacc sacc maxv thr < 256 := by
  intro n
  induction n with
  | zero =>
    intro t wacc sacc maxv thr htn hthr
    rw [otsuLoop]
    exact hthr
  | succ n ih =>
    intro t wacc sacc maxv thr htn hthr
    rw [otsuLoop]
    dsimp only
    split_ifs <;> first
      | exact ih (t + 1) _ _ _ _ (by omega) hthr
      | exact ih (t + 1) _ _ _ _ (by omega) (by omega)
      | exact hthr

/-- C8 (amended): the adaptive threshold is always a 0–255 bin whose
inter-class variance is maximal among all 256 bins, and it is the first
such bin; consequently, for a synthetic bimodal histogram whose mass sits
in two spike bins p1 < p2 the returned threshold is exactly p1 — the low
end of the inter-peak plateau, at the lower peak rather than strictly
between the peaks. -/
theorem C8_otsu_threshold_argmax :
    (∀ hist : List ℕ,
      get_adaptive_threshold hist < 256 ∧
      (∀ t, t < 256 →
        interClassVariance hist t ≤
          interClassVariance hist (get_adaptive_threshold hist)) ∧
      (∀ t, t < get_adaptive_threshold hist →
        interClassVariance hist t <
          interClassVariance hist (get_adaptive_threshold hist))) ∧
    (∀ p1 p2 n1 n2 : ℕ, p1 < p2 → p2 < 256 → 0 < n1 → 0 < n2 →
      get_adaptive_threshold (spikeHist p1 p2 n1 n2) = p1 ∧
      ¬(p1 < get_adaptive_threshold (spikeHist p1 p2 n1 n2) ∧
        get_adaptive_threshold (spikeHist p1 p2 n1 n2) < p2)) := by
  constructor
  · intro hist
    refine ⟨otsuLoop_lt_256 hist hist.sum 256 0 0 0 0 0 rfl (by omega), otsu_argmax hist⟩
  · intro p1 p2 n1 n2 h12 hp2 hn1 hn2
    have h := otsu_spike_threshold p1 p2 n1 n2 h12 hp2 hn1 hn2
    refine ⟨h, ?_⟩
    rw [h]
    omega

/-- C8 counterexample: for the well-separated two-spike histogram with
peaks at bins 50 and 200, the returned threshold is 50 — equal to the
lower peak position, hence not strictly between the two peaks. -/
theorem C8_counterexample :
    get_adaptive_threshold (spikeHist 50 200 100 100) = 50 ∧
    ¬(50 < get_adaptive_threshold (spikeHist 50 200 100 100) ∧
      get_adaptive_threshold (spikeHist 50 200 100 100) < 200) := by
  have h := otsu_spike_threshold 50 200 100 100 (by omega) (by omega) (by omega)
    (by omega)
  exact ⟨h, by rw [h]; omega⟩

/-- Witness for C8: the maximization at a sample bin and the spike result
for peaks 10 and 20. -/
theorem C8_witness :
    interClassVariance (spikeHist 10 20 1 1) 15 ≤
      interClassVariance (spikeHist 10 20 1 1)
        (get_adaptive_threshold (spikeHist 10 20 1 1)) ∧
    get_adaptive_threshold (spikeHist 10 20 1 1) = 10 :=
  ⟨(C8_otsu_threshold_argmax.1 (spikeHist 10 20 1 1)).2.1 15 (by omega),
   (C8_otsu_threshold_argmax.2 10 20 1 1 (by omega) (by omega) (by omega)
      (by omega)).1⟩

end Spec2Proof
